import Mathlib

set_option maxHeartbeats 1000000

/-!  Verification of iframify (src/index.js) against its specification.

The development shallowly embeds the script's data model and functions:
CSS rules and stylesheets as read through the host CSSOM, DOM nodes with a
host-supplied selector-matching capability, and the frame-replacement entry
point `iframify` as a state transformer that also records a trace of its
side effects.  Host primitives that the script calls but does not define
(`Element.matches`, `querySelectorAll` order, `encodeURI`) are modelled
faithfully from their host semantics.  -/

namespace Iframify

/-- A CSS rule as exposed by the host style object model: `selectorText`
(absent for group rules such as font-face or media groups), `cssText`
(the canonical serialized form), and `cssRules` (present exactly when the
rule is a conditional-group rule wrapping nested rules; a present but empty
rule list is still a group, mirroring JS truthiness of a CSSRuleList). -/
inductive CSSRule : Type where
  | mk (selectorText : Option String) (cssText : String)
       (cssRules : Option (List CSSRule)) : CSSRule

/-- Accessor for the rule's selector text (absent for group rules). -/
def CSSRule.selectorText : CSSRule → Option String
  | .mk s _ _ => s

/-- Accessor for the rule's serialized text. -/
def CSSRule.cssText : CSSRule → String
  | .mk _ t _ => t

/-- Accessor for the rule's nested rule list (present iff the rule is a
conditional-group rule). -/
def CSSRule.cssRules : CSSRule → Option (List CSSRule)
  | .mk _ _ r => r

/-- A DOM element node.  `matchesFn` is the host's native selector-matching
primitive `node.matches(sel)`; its argument is `none` when the script passes
an absent (`undefined`) selector, so the host, not the script, decides the
result in that case.  `innerHTML` is the host serialization of the node's
descendant markup, and `childNodes` its element children (giving the
document-order tree used by `querySelectorAll('*')`). -/
inductive Node : Type where
  | mk (matchesFn : Option String → Bool) (innerHTML : String)
       (childNodes : List Node) : Node

/-- Accessor for the host matching primitive of a node. -/
def Node.matchesFn : Node → Option String → Bool
  | .mk f _ _ => f

/-- Accessor for the host serialization of the node's inner markup. -/
def Node.innerHTML : Node → String
  | .mk _ h _ => h

/-- Accessor for the node's element children in document order. -/
def Node.childNodes : Node → List Node
  | .mk _ _ c => c

mutual

/-- Descendant elements of a node in document pre-order, the sequence
returned by `rootNode.querySelectorAll('*')` (the node itself excluded). -/
def Node.descendants : Node → List Node
  | .mk _ _ children => Node.descendantsList children

/-- Pre-order flattening of a forest of sibling subtrees. -/
def Node.descendantsList : List Node → List Node
  | [] => []
  | c :: cs => c :: (Node.descendants c ++ Node.descendantsList cs)

end

/-- Direct embedding of `shouldAddRule` (src/index.js lines 27-39): when the
rule has a nested rule list (`if (cssRule.cssRules)`, a group rule) it scans
the nested rules and returns true as soon as one nested selector matches the
node; otherwise it returns `node.matches(cssRule.selectorText)`. -/
def shouldAddRule (node : Node) (cssRule : CSSRule) : Bool :=
  match cssRule.cssRules with
  | some nested => nested.any (fun r => node.matchesFn r.selectorText)
  | none => node.matchesFn cssRule.selectorText

/-- A host exception surfaced while reading the CSSOM (e.g. the
SecurityError thrown on accessing a cross-origin stylesheet's rule list). -/
inductive JsError : Type where
  | securityError : JsError
deriving DecidableEq, Repr

/-- Result of reading one property of a stylesheet object: the getter may
throw (cross-origin access), or produce either `none` (the property is
`null`/`undefined`, falsy in JS) or a rule-list object (truthy even when
empty). -/
inductive Getter : Type where
  | throws : Getter
  | val (v : Option (List CSSRule)) : Getter

/-- A stylesheet as seen by the script: the standard `cssRules` property and
the legacy `rules` property, each a getter that may throw or yield
`null`/a rule list. -/
structure StyleSheet : Type where
  cssRules : Getter
  rules : Getter

/-- Embedding of the expression
`stylesheets[i].cssRules || stylesheets[i].rules` (src/index.js line 55):
read `cssRules` (propagating a thrown exception); if truthy take it,
otherwise read `rules` (again propagating a throw) and take whatever it
yields. -/
def readRuleList (s : StyleSheet) : Except JsError (Option (List CSSRule)) :=
  match s.cssRules with
  | .throws => .error .securityError
  | .val (some l) => .ok (some l)
  | .val none =>
    match s.rules with
    | .throws => .error .securityError
    | .val v => .ok v

/-- JS object-key insertion `object[k] = true`: string keys of a JS object
enumerate in insertion order (rule serializations are never array-index
strings), so an object with all-`true` values is an insertion-ordered
duplicate-free key list, and assigning an existing key leaves the order
unchanged. -/
def insertKey (object : List String) (k : String) : List String :=
  if k ∈ object then object else object ++ [k]

/-- Semantics of `Object.assign({}, tree, child)` on the key lists of two
all-`true`-valued objects: the result's keys are `tree`'s keys in their
order followed by the keys of `child` not already present, in `child`'s
order (re-assigned keys keep their original position). -/
def objectAssign (tree child : List String) : List String :=
  tree ++ child.filter (fun k => k ∉ tree)

/-- Direct embedding of `getRulesImpactingNode` (src/index.js lines 50-66):
walk the document's stylesheets in order; for each, evaluate
`cssRules || rules` (a thrown getter aborts the whole function — there is no
try/catch); skip the sheet when that is falsy; otherwise scan its top-level
rules in order and record `cssText` of each rule passing `shouldAddRule`
into the accumulating object. -/
def getRulesImpactingNode (stylesheets : List StyleSheet) (node : Node) :
    Except JsError (List String) :=
  stylesheets.foldlM
    (fun object s => do
      let cssRules ← readRuleList s
      match cssRules with
      | none => pure object
      | some rules =>
        pure (rules.foldl
          (fun obj r => if shouldAddRule node r then insertKey obj r.cssText else obj)
          object))
    []

/-- Direct embedding of `getStylesForTree` (src/index.js lines 75-82):
`querySelectorAll('*')` for the descendants, then a reduce whose initial
value is `getRulesImpactingNode(rootNode)` and whose step merges each
child's fresh rule object into the accumulator with
`Object.assign({}, tree, ...)`; finally `Object.keys(rules).join('')`. -/
def getStylesForTree (stylesheets : List StyleSheet) (rootNode : Node) :
    Except JsError String := do
  let children := rootNode.descendants
  let init ← getRulesImpactingNode stylesheets rootNode
  let rules ← children.foldlM
    (fun tree child =>
      (getRulesImpactingNode stylesheets child).map (fun childObj => objectAssign tree childObj))
    init
  pure (String.join rules)

/-- Direct embedding of `getIframeContentForNode` (src/index.js lines
89-97): the fixed document template around the collected styles and the
node's `innerHTML`. -/
def getIframeContentForNode (stylesheets : List StyleSheet) (node : Node) :
    Except JsError String :=
  (getStylesForTree stylesheets node).map (fun styles =>
    "<!doctype html>" ++ "<html lang=\"en\">" ++ "<head>"
      ++ "<style>" ++ styles ++ "</style>" ++ "</head>"
      ++ "<body>" ++ node.innerHTML ++ "</body>" ++ "</html>")

/-! Spec-side model of the collector, for the refinement claims. -/

/-- Reading of a stylesheet with inaccessible sheets silenced: an
inaccessible sheet (its getters throw) is treated exactly like one with no
readable rule list.  Used by the spec-side collector. -/
def readRuleListOr (s : StyleSheet) : Option (List CSSRule) :=
  match readRuleList s with
  | .ok v => v
  | .error _ => none

/-- One candidate node's scan, spec-side (§4.2 step 2): every stylesheet in
order, skipping those without a readable rule list, then every top-level
rule in rule order, recording `cssText` of relevant rules into the single
accumulating ordered set. -/
def rulesForNode (stylesheets : List StyleSheet) (node : Node)
    (acc : List String) : List String :=
  stylesheets.foldl
    (fun object s =>
      match readRuleListOr s with
      | none => object
      | some rules =>
        rules.foldl
          (fun obj r => if shouldAddRule node r then insertKey obj r.cssText else obj)
          object)
    acc

/-- Modelled from the spec: `TreeStyleCollector.collectRules` (§4.2). The
candidate node list is the root followed by its descendants in document
pre-order; each candidate is scanned with `rulesForNode` into one
accumulating deduplicated list, whose entries end up in first-discovery
order. -/
def collectRules (stylesheets : List StyleSheet) (rootNode : Node) : List String :=
  (rootNode :: rootNode.descendants).foldl
    (fun acc n => rulesForNode stylesheets n acc) []

/-! Host model of `encodeURI` (ECMA-262) and of percent-decoding, needed by
the data-URI fallback claims.  `encodeURI` leaves the uriReserved,
uriUnescaped and `#` code points untouched and replaces every other
character by the `%XX` uppercase-hex escapes of its UTF-8 bytes.  Lean
strings hold Unicode scalar values, so the lone-surrogate failure mode of
the host primitive cannot arise here. -/

/-- Uppercase hexadecimal digit for a value below 16, as emitted by the
host's `encodeURI`. -/
def hexDigitChar (n : Nat) : Char :=
  if n < 10 then Char.ofNat (48 + n) else Char.ofNat (55 + n)

/-- Value of one hexadecimal digit character (both cases accepted, as in
percent-decoding), `none` for a non-digit. -/
def hexCharVal (c : Char) : Option Nat :=
  if 48 ≤ c.toNat ∧ c.toNat ≤ 57 then some (c.toNat - 48)
  else if 65 ≤ c.toNat ∧ c.toNat ≤ 70 then some (c.toNat - 55)
  else if 97 ≤ c.toNat ∧ c.toNat ≤ 102 then some (c.toNat - 87)
  else none

/-- UTF-8 encoding of one Unicode scalar value. -/
def utf8Bytes (n : Nat) : List Nat :=
  if n < 0x80 then [n]
  else if n < 0x800 then [0xC0 + n / 0x40, 0x80 + n % 0x40]
  else if n < 0x10000 then
    [0xE0 + n / 0x1000, 0x80 + n / 0x40 % 0x40, 0x80 + n % 0x40]
  else
    [0xF0 + n / 0x40000, 0x80 + n / 0x1000 % 0x40, 0x80 + n / 0x40 % 0x40,
      0x80 + n % 0x40]

/-- Percent escape of one byte: `%` followed by two uppercase hex digits. -/
def percentEscape (b : Nat) : List Char :=
  ['%', hexDigitChar (b / 16), hexDigitChar (b % 16)]

/-- Characters `encodeURI` leaves unescaped, by code point: ASCII letters
`A`-`Z` (65-90) and `a`-`z` (97-122), digits `0`-`9` (48-57), the uriMark
set `-` 45, `_` 95, `.` 46, `!` 33, `~` 126, `*` 42, `'` 39, `(` 40,
`)` 41, the uriReserved set `;` 59, `/` 47, `?` 63, `:` 58, `@` 64, `&` 38,
`=` 61, `+` 43, `$` 36, `,` 44, and `#` 35. -/
def uriKeepChar (c : Char) : Bool :=
  (65 ≤ c.toNat && c.toNat ≤ 90) || (97 ≤ c.toNat && c.toNat ≤ 122)
    || (48 ≤ c.toNat && c.toNat ≤ 57)
    || c.toNat == 45 || c.toNat == 95 || c.toNat == 46 || c.toNat == 33
    || c.toNat == 126 || c.toNat == 42 || c.toNat == 39 || c.toNat == 40
    || c.toNat == 41 || c.toNat == 59 || c.toNat == 47 || c.toNat == 63
    || c.toNat == 58 || c.toNat == 64 || c.toNat == 38 || c.toNat == 61
    || c.toNat == 43 || c.toNat == 36 || c.toNat == 44 || c.toNat == 35

/-- Encoding of one character by `encodeURI`: kept literally when in the
unescaped set, otherwise replaced by the percent escapes of its UTF-8
bytes. -/
def encodeURIChar (c : Char) : List Char :=
  if uriKeepChar c then [c] else (utf8Bytes c.toNat).flatMap percentEscape

/-- Host model of `encodeURI` (ECMA-262 18.2.6.4). -/
def encodeURI (s : String) : String :=
  ⟨s.data.flatMap encodeURIChar⟩

/-- Percent-decoding of a percent-encoded ASCII string to its byte
sequence: a `%` must be followed by two hex digits and denotes that byte;
any other ASCII character denotes its own code point; fails on a malformed
escape or a non-ASCII character. -/
def percentDecodeBytes : List Char → Option (List Nat)
  | [] => some []
  | c :: rest =>
    if c = '%' then
      match rest with
      | h1 :: h2 :: rest2 =>
        match hexCharVal h1, hexCharVal h2 with
        | some a, some b => (percentDecodeBytes rest2).map (fun t => (a * 16 + b) :: t)
        | _, _ => none
      | _ => none
    else if c.toNat < 0x80 then (percentDecodeBytes rest).map (fun t => c.toNat :: t)
    else none

/-- UTF-8 decoding of a byte sequence to Unicode scalar values; fails on a
truncated or ill-formed sequence. -/
def utf8Decode : List Nat → Option (List Nat)
  | [] => some []
  | b0 :: rest =>
    if b0 < 0x80 then (utf8Decode rest).map (fun t => b0 :: t)
    else if b0 < 0xC0 then none
    else match rest with
    | [] => none
    | b1 :: rest1 =>
      if b0 < 0xE0 then
        if 0x80 ≤ b1 ∧ b1 < 0xC0 then
          (utf8Decode rest1).map (fun t => ((b0 - 0xC0) * 0x40 + (b1 - 0x80)) :: t)
        else none
      else match rest1 with
      | [] => none
      | b2 :: rest2 =>
        if b0 < 0xF0 then
          if (0x80 ≤ b1 ∧ b1 < 0xC0) ∧ (0x80 ≤ b2 ∧ b2 < 0xC0) then
            (utf8Decode rest2).map
              (fun t => ((b0 - 0xE0) * 0x1000 + (b1 - 0x80) * 0x40 + (b2 - 0x80)) :: t)
          else none
        else match rest2 with
        | [] => none
        | b3 :: rest3 =>
          if b0 < 0xF8 then
            if (0x80 ≤ b1 ∧ b1 < 0xC0) ∧ (0x80 ≤ b2 ∧ b2 < 0xC0)
                ∧ (0x80 ≤ b3 ∧ b3 < 0xC0) then
              (utf8Decode rest3).map
                (fun t => ((b0 - 0xF0) * 0x40000 + (b1 - 0x80) * 0x1000
                  + (b2 - 0x80) * 0x40 + (b3 - 0x80)) :: t)
            else none
          else none

/-- Percent-decoding of a full percent-encoded string back to text:
percent-decode to bytes, then UTF-8-decode the bytes. -/
def percentDecode (s : String) : Option String :=
  match (percentDecodeBytes s.data).bind utf8Decode with
  | some cps => some ⟨cps.map Char.ofNat⟩
  | none => none

/-! Model of the frame-replacement entry point `iframify`. -/

/-- Layout metrics readable from the frame's internal document at the time
the deferred measurement fires: the five quantities the callback reads from
`body` and `documentElement`. -/
structure Metrics : Type where
  bodyScrollHeight : Nat
  bodyOffsetHeight : Nat
  htmlClientHeight : Nat
  htmlScrollHeight : Nat
  htmlOffsetHeight : Nat
deriving DecidableEq, Repr

/-- Mutable state of the created frame element: its `srcdoc` property, its
`src` attribute and its `height` attribute, each unset on a freshly created
element. -/
structure IFrameState : Type where
  srcdoc : Option String
  src : Option String
  height : Option String
deriving DecidableEq, Repr

/-- Action of a scheduled callback; the script only ever schedules the
height measurement. -/
inductive TimerAction : Type where
  | measure : TimerAction
deriving DecidableEq, Repr

/-- A deferred single-shot callback: its delay in time units and its
action. -/
structure Timer : Type where
  delayMs : Nat
  action : TimerAction
deriving DecidableEq, Repr

/-- Semantics of the deferred callback (src/index.js lines 117-124): read
the internal document's `documentElement` and `body` metrics and set the
frame's height to `Math.max` of the five values, suffixed with `px`. -/
def runTimer (a : TimerAction) (m : Metrics) (frame : IFrameState) : IFrameState :=
  match a with
  | .measure =>
    { frame with
        height := some (toString
          (Nat.max (Nat.max (Nat.max (Nat.max m.bodyScrollHeight m.bodyOffsetHeight)
            m.htmlClientHeight) m.htmlScrollHeight) m.htmlOffsetHeight) ++ "px") }

/-- Effect on the frame of every callback the call left scheduled, in
order; with no timers scheduled the frame is never touched again. -/
def runTimers (ts : List Timer) (m : Metrics) (frame : IFrameState) : IFrameState :=
  ts.foldl (fun fr t => runTimer t.action m fr) frame

/-- Observable side effects of one `iframify` call, in program order. -/
inductive Event : Type where
  | assignSrcdoc (html : String) : Event
  | assignSrc (uri : String) : Event
  | replaceInParent : Event
  | schedule (delayMs : Nat) : Event
deriving DecidableEq, Repr

/-- Semantics of `parent.replaceChild(newChild, oldChild)` on the parent's
child list (children identified by id): the old child is replaced in place
by the new one. -/
def replaceFirst (children : List Nat) (oldChild newChild : Nat) : List Nat :=
  match children with
  | [] => []
  | c :: cs =>
    if c = oldChild then newChild :: cs else c :: replaceFirst cs oldChild newChild

/-- Host state an `iframify` call depends on: whether the inert
document-source channel exists (`'srcdoc' in iframe`), the document's
stylesheet list, and the child list of the target node's parent. -/
structure World : Type where
  srcdocSupported : Bool
  styleSheets : List StyleSheet
  parentChildren : List Nat

/-- Outcome of one `iframify` call: the created frame's final synchronous
state, the parent's new child list, the callbacks left scheduled, and the
trace of side effects in program order. -/
structure IframifyResult : Type where
  frame : IFrameState
  parentChildren : List Nat
  timers : List Timer
  events : List Event
deriving Repr

/-- Direct embedding of `iframify` (src/index.js lines 106-125):
`createElement` yields a frame with no `srcdoc`, `src` or `height`; the
synthesized html is computed (a CSSOM exception propagates); `srcdoc` is
assigned unconditionally, then `src` is set to the data URI with the
percent-encoded html, then the node is swapped for the frame in its
parent's child list; finally `('srcdoc' in iframe) && setTimeout(..., 500)`
schedules the single measurement exactly when the channel is supported.
`nodeId` identifies the target node in its parent's child list and
`iframeId` the freshly created frame (a created element belongs to no
tree, so a well-formed call has `iframeId` outside the child list). -/
def iframify (w : World) (node : Node) (nodeId iframeId : Nat) :
    Except JsError IframifyResult :=
  (getIframeContentForNode w.styleSheets node).map (fun html =>
    let uri := "data:text/html;charset=utf-8," ++ encodeURI html
    { frame := { srcdoc := some html, src := some uri, height := none }
      parentChildren := replaceFirst w.parentChildren nodeId iframeId
      timers := if w.srcdocSupported then [⟨500, .measure⟩] else []
      events := [.assignSrcdoc html, .assignSrc uri, .replaceInParent]
        ++ if w.srcdocSupported then [.schedule 500] else [] })

/-! Concrete fixtures used by the scenario conjuncts and the witnesses. -/

/-- The rule `.box{padding:10px}` of the spec's scenario. -/
def boxRule : CSSRule := .mk (some ".box") ".box{padding:10px}" none

/-- A stylesheet holding exactly `boxRule`. -/
def boxSheet : StyleSheet := ⟨.val (some [boxRule]), .val none⟩

/-- A conditional-group rule wrapping a nested `.box` rule. -/
def mediaRule : CSSRule :=
  .mk none "@media (max-width:100px){.box{padding:5px}}"
    (some [.mk (some ".box") ".box{padding:5px}" none])

/-- A stylesheet holding `boxRule` followed by `mediaRule`. -/
def mediaSheet : StyleSheet := ⟨.val (some [boxRule, mediaRule]), .val none⟩

/-- A stylesheet with no readable rule list: both getters yield `null`
without throwing. -/
def nullSheet : StyleSheet := ⟨.val none, .val none⟩

/-- A cross-origin stylesheet in a host where reading `cssRules` throws a
SecurityError. -/
def throwingSheet : StyleSheet := ⟨.throws, .val none⟩

/-- The `<span>hi</span>` child of the scenario root; it matches no
selector of the fixtures. -/
def spanChild : Node := .mk (fun _ => false) "hi" []

/-- The scenario root `<div class="box"><span>hi</span></div>`: it matches
exactly the selector `.box`. -/
def boxRoot : Node := .mk (fun s => s == some ".box") "<span>hi</span>" [spanChild]

/-- A top-level selector-less rule (a font-face rule): no `selectorText`,
no nested rule list. -/
def fontFaceRule : CSSRule := .mk none "@font-face{font-family:x}" none

/-- A probe node whose host matching primitive returns true exactly on an
absent selector, separating delegation to `matches` from a hard-coded
false. -/
def probeNode : Node := .mk (fun s => s.isNone) "" []

/-- Scenario world for the replacement claims: channel supported, one
stylesheet, and a parent whose children are nodes `7`, `3`, `9`. -/
def demoWorld : World := ⟨true, [boxSheet], [7, 3, 9]⟩

/-- Scenario world with the inert channel unsupported. -/
def noSrcdocWorld : World := ⟨false, [boxSheet], [7, 3, 9]⟩

/-- Sequential insertion of keys into an ordered duplicate-free key list,
the normal form both collectors reduce to. -/
def insertAll (object : List String) (ks : List String) : List String :=
  ks.foldl insertKey object

/-- Sequence of `cssText` values of the rules relevant to a node, in
stylesheet order then rule order, sheets without a readable rule list
skipped; duplicates not yet removed. -/
def relevantTexts (stylesheets : List StyleSheet) (node : Node) : List String :=
  stylesheets.flatMap (fun s =>
    match readRuleListOr s with
    | none => []
    | some rules => (rules.filter (fun r => shouldAddRule node r)).map CSSRule.cssText)

/-- Synthesized document of the scenario: the `.box` rule collected once,
the root's inner markup as the body. -/
def demoHtml : String :=
  "<!doctype html><html lang=\"en\"><head><style>.box{padding:10px}</style></head><body><span>hi</span></body></html>"

/-- Result of `iframify demoWorld boxRoot 3 42`, spelled out. -/
def demoResult : IframifyResult :=
  { frame := { srcdoc := some demoHtml,
               src := some ("data:text/html;charset=utf-8," ++ encodeURI demoHtml),
               height := none }
    parentChildren := [7, 42, 9]
    timers := [⟨500, .measure⟩]
    events := [.assignSrcdoc demoHtml,
               .assignSrc ("data:text/html;charset=utf-8," ++ encodeURI demoHtml),
               .replaceInParent, .schedule 500] }

/-- Result of `iframify noSrcdocWorld boxRoot 3 42`: same sources, but no
measurement scheduled. -/
def noSrcdocResult : IframifyResult :=
  { frame := { srcdoc := some demoHtml,
               src := some ("data:text/html;charset=utf-8," ++ encodeURI demoHtml),
               height := none }
    parentChildren := [7, 42, 9]
    timers := []
    events := [.assignSrcdoc demoHtml,
               .assignSrc ("data:text/html;charset=utf-8," ++ encodeURI demoHtml),
               .replaceInParent] }

/-- Concrete layout metrics for the measurement witnesses; their maximum is
42. -/
def demoMetrics : Metrics := ⟨10, 20, 5, 30, 42⟩

/-! Helper lemmas: the ordered duplicate-free key list. -/

theorem mem_objectAssign {acc b : List String} {x : String} :
    x ∈ objectAssign acc b ↔ x ∈ acc ∨ x ∈ b := by
  simp only [objectAssign, List.mem_append, List.mem_filter, decide_eq_true_eq]
  constructor
  · rintro (h | ⟨h, _⟩)
    · exact Or.inl h
    · exact Or.inr h
  · rintro (h | h)
    · exact Or.inl h
    · by_cases ha : x ∈ acc
      · exact Or.inl ha
      · exact Or.inr ⟨h, ha⟩

theorem objectAssign_nil (acc : List String) : objectAssign acc [] = acc := by
  simp [objectAssign]

theorem objectAssign_insertKey (acc b : List String) (x : String) :
    objectAssign acc (insertKey b x) = insertKey (objectAssign acc b) x := by
  by_cases hb : x ∈ b
  · have hx : x ∈ objectAssign acc b := mem_objectAssign.2 (Or.inr hb)
    simp [insertKey, hb, hx]
  · by_cases ha : x ∈ acc
    · have hx : x ∈ objectAssign acc b := mem_objectAssign.2 (Or.inl ha)
      simp [insertKey, hb, hx, objectAssign, List.filter_append, ha]
    · have hx : x ∉ objectAssign acc b := fun h => by
        rcases mem_objectAssign.1 h with h | h
        exacts [ha h, hb h]
      simp [insertKey, hb, hx, objectAssign, List.filter_append, ha,
        List.append_assoc]

theorem insertAll_append (obj a b : List String) :
    insertAll obj (a ++ b) = insertAll (insertAll obj a) b := by
  simp [insertAll, List.foldl_append]

theorem objectAssign_insertAll (acc : List String) (ks : List String) :
    ∀ b, objectAssign acc (insertAll b ks) = insertAll (objectAssign acc b) ks := by
  induction ks with
  | nil => intro b; simp [insertAll]
  | cons k ks ih =>
    intro b
    have h1 : insertAll b (k :: ks) = insertAll (insertKey b k) ks := rfl
    have h2 : insertAll (objectAssign acc b) (k :: ks)
        = insertAll (insertKey (objectAssign acc b) k) ks := rfl
    rw [h1, h2, ih, objectAssign_insertKey]

theorem insertKey_nodup {obj : List String} (h : obj.Nodup) (k : String) :
    (insertKey obj k).Nodup := by
  unfold insertKey
  split
  · exact h
  · simp_all [List.nodup_append]

theorem insertAll_nodup {obj : List String} (h : obj.Nodup) (ks : List String) :
    (insertAll obj ks).Nodup := by
  induction ks generalizing obj with
  | nil => exact h
  | cons k ks ih =>
    have h1 : insertAll obj (k :: ks) = insertAll (insertKey obj k) ks := rfl
    rw [h1]
    exact ih (insertKey_nodup h k)

/-! Helper lemmas: the per-node scan and its normal form. -/

theorem scanRules_eq (node : Node) (rules : List CSSRule) (obj : List String) :
    rules.foldl
      (fun obj r => if shouldAddRule node r then insertKey obj r.cssText else obj) obj
      = insertAll obj
          ((rules.filter (fun r => shouldAddRule node r)).map CSSRule.cssText) := by
  induction rules generalizing obj with
  | nil => simp [insertAll]
  | cons r rs ih =>
    by_cases h : shouldAddRule node r
    · simp only [List.foldl_cons, h, if_pos, List.filter_cons_of_pos,
        List.map_cons]
      rw [ih]
      rfl
    · simp only [List.foldl_cons, h, if_neg, Bool.false_eq_true,
        not_false_iff, List.filter_cons_of_neg]
      rw [ih]

theorem rulesForNode_eq (stylesheets : List StyleSheet) (node : Node)
    (acc : List String) :
    rulesForNode stylesheets node acc = insertAll acc (relevantTexts stylesheets node) := by
  induction stylesheets generalizing acc with
  | nil => simp [rulesForNode, relevantTexts, insertAll]
  | cons s ss ih =>
    cases h : readRuleListOr s with
    | none =>
      have hstep : rulesForNode (s :: ss) node acc = rulesForNode ss node acc := by
        unfold rulesForNode
        rw [List.foldl_cons]
        simp [h]
      have htexts : relevantTexts (s :: ss) node = relevantTexts ss node := by
        simp [relevantTexts, h]
      rw [hstep, htexts, ih]
    | some rules =>
      have hstep : rulesForNode (s :: ss) node acc
          = rulesForNode ss node
              (rules.foldl
                (fun obj r => if shouldAddRule node r then insertKey obj r.cssText else obj)
                acc) := by
        unfold rulesForNode
        rw [List.foldl_cons]
        simp [h]
      have htexts : relevantTexts (s :: ss) node
          = ((rules.filter (fun r => shouldAddRule node r)).map CSSRule.cssText)
              ++ relevantTexts ss node := by
        simp [relevantTexts, h]
      rw [hstep, ih, htexts, insertAll_append, scanRules_eq]

/-! Helper lemmas: the code's monadic folds reduce to the spec-side pure
collector when every stylesheet read succeeds. -/

theorem ok_bind_eq {ε α β : Type} (a : α) (f : α → Except ε β) :
    (Except.ok a >>= f : Except ε β) = f a := rfl

theorem getRules_aux (node : Node) :
    ∀ (l : List StyleSheet), (∀ s ∈ l, readRuleList s = .ok (readRuleListOr s)) →
    ∀ (object : List String),
    (l.foldlM
      (fun object s => do
        let cssRules ← readRuleList s
        match cssRules with
        | none => pure object
        | some rules =>
          pure (rules.foldl
            (fun obj r => if shouldAddRule node r then insertKey obj r.cssText else obj)
            object))
      object : Except JsError (List String))
      = .ok (rulesForNode l node object) := by
  intro l
  induction l with
  | nil => intro _ object; rfl
  | cons s ss ih =>
    intro h object
    rw [List.foldlM_cons, h s (List.mem_cons_self _ _)]
    cases hv : readRuleListOr s with
    | none =>
      have hrhs : rulesForNode (s :: ss) node object = rulesForNode ss node object := by
        unfold rulesForNode
        rw [List.foldl_cons]
        simp [hv]
      rw [ok_bind_eq, hrhs]
      exact ih (fun t ht => h t (List.mem_cons_of_mem _ ht)) object
    | some rules =>
      have hrhs : rulesForNode (s :: ss) node object
          = rulesForNode ss node
              (rules.foldl
                (fun obj r => if shouldAddRule node r then insertKey obj r.cssText else obj)
                object) := by
        unfold rulesForNode
        rw [List.foldl_cons]
        simp [hv]
      rw [ok_bind_eq, hrhs]
      exact ih (fun t ht => h t (List.mem_cons_of_mem _ ht)) _

theorem getRulesImpactingNode_ok (stylesheets : List StyleSheet) (node : Node)
    (hacc : ∀ s ∈ stylesheets, readRuleList s = .ok (readRuleListOr s)) :
    getRulesImpactingNode stylesheets node = .ok (rulesForNode stylesheets node []) :=
  getRules_aux node stylesheets hacc []

theorem objectAssign_rulesForNode (stylesheets : List StyleSheet) (node : Node)
    (tree : List String) :
    objectAssign tree (rulesForNode stylesheets node []) = rulesForNode stylesheets node tree := by
  rw [rulesForNode_eq, rulesForNode_eq, objectAssign_insertAll, objectAssign_nil]

theorem stylesFold_aux (stylesheets : List StyleSheet)
    (hacc : ∀ s ∈ stylesheets, readRuleList s = .ok (readRuleListOr s)) :
    ∀ (children : List Node) (tree : List String),
    (children.foldlM
      (fun tree child =>
        (getRulesImpactingNode stylesheets child).map (fun childObj => objectAssign tree childObj))
      tree : Except JsError (List String))
      = .ok (children.foldl (fun tree child => rulesForNode stylesheets child tree) tree) := by
  intro children
  induction children with
  | nil => intro tree; rfl
  | cons c cs ih =>
    intro tree
    rw [List.foldlM_cons, getRulesImpactingNode_ok stylesheets c hacc]
    have hmap : (Except.ok (rulesForNode stylesheets c []) :
          Except JsError (List String)).map (fun childObj => objectAssign tree childObj)
        = Except.ok (objectAssign tree (rulesForNode stylesheets c [])) := rfl
    rw [hmap, ok_bind_eq, objectAssign_rulesForNode, List.foldl_cons]
    exact ih _

theorem getStylesForTree_ok (stylesheets : List StyleSheet) (rootNode : Node)
    (hacc : ∀ s ∈ stylesheets, readRuleList s = .ok (readRuleListOr s)) :
    getStylesForTree stylesheets rootNode
      = .ok (String.join (collectRules stylesheets rootNode)) := by
  unfold getStylesForTree
  rw [getRulesImpactingNode_ok stylesheets rootNode hacc, ok_bind_eq,
    stylesFold_aux stylesheets hacc, ok_bind_eq]
  rfl

theorem collectRules_nodup (stylesheets : List StyleSheet) (rootNode : Node) :
    (collectRules stylesheets rootNode).Nodup := by
  have H : ∀ (nodes : List Node) (acc : List String), acc.Nodup →
      (nodes.foldl (fun acc n => rulesForNode stylesheets n acc) acc).Nodup := by
    intro nodes
    induction nodes with
    | nil => intro acc h; exact h
    | cons n ns ih =>
      intro acc h
      rw [List.foldl_cons]
      exact ih _ (by rw [rulesForNode_eq]; exact insertAll_nodup h _)
  exact H _ [] List.nodup_nil

/-! Helper lemmas: percent-decoding inverts `encodeURI`. -/

theorem char_eq_of_toNat {c d : Char} (h : c.toNat = d.toNat) : c = d :=
  Char.ext (UInt32.ext h)

theorem char_toNat_lt (c : Char) : c.toNat < 0x110000 := by
  rcases c.valid with h | ⟨h1, h2⟩
  · exact Nat.lt_trans h (by norm_num)
  · exact h2

theorem hexRoundtrip (n : Nat) (h : n < 16) :
    hexCharVal (hexDigitChar n) = some n := by
  interval_cases n <;> rfl

theorem percentDecodeBytes_escape (b : Nat) (hb : b < 256) (rest : List Char) :
    percentDecodeBytes (percentEscape b ++ rest)
      = (percentDecodeBytes rest).map (fun t => b :: t) := by
  have h1 : hexCharVal (hexDigitChar (b / 16)) = some (b / 16) :=
    hexRoundtrip _ (by omega)
  have h2 : hexCharVal (hexDigitChar (b % 16)) = some (b % 16) :=
    hexRoundtrip _ (by omega)
  simp only [percentEscape, List.cons_append, List.nil_append]
  rw [percentDecodeBytes.eq_def]
  simp only [reduceIte, h1, h2]
  have hd : b / 16 * 16 + b % 16 = b := by omega
  simp only [hd]

theorem percentDecodeBytes_escapes (bs : List Nat) (hb : ∀ b ∈ bs, b < 256)
    (rest : List Char) :
    percentDecodeBytes (bs.flatMap percentEscape ++ rest)
      = (percentDecodeBytes rest).map (fun t => bs ++ t) := by
  induction bs with
  | nil => simp
  | cons b bs ih =>
    rw [List.flatMap_cons, List.append_assoc,
      percentDecodeBytes_escape b (hb b (List.mem_cons_self _ _)),
      ih (fun x hx => hb x (List.mem_cons_of_mem _ hx)), Option.map_map]
    rfl

theorem uriKeepChar_ascii {c : Char} (h : uriKeepChar c = true) :
    c.toNat < 128 ∧ c.toNat ≠ 37 := by
  simp only [uriKeepChar, Bool.or_eq_true, Bool.and_eq_true, decide_eq_true_eq,
    beq_iff_eq] at h
  omega

theorem utf8Bytes_lt {n : Nat} (h : n < 0x110000) : ∀ b ∈ utf8Bytes n, b < 256 := by
  intro b hb
  unfold utf8Bytes at hb
  by_cases h1 : n < 0x80
  · simp only [h1, if_pos, List.mem_singleton] at hb
    omega
  · by_cases h2 : n < 0x800
    · simp only [h1, h2, if_neg, if_pos, not_false_iff, List.mem_cons,
        List.mem_singleton, List.not_mem_nil, or_false] at hb
      rcases hb with hb | hb <;> omega
    · by_cases h3 : n < 0x10000
      · simp only [h1, h2, h3, if_neg, if_pos, not_false_iff, List.mem_cons,
          List.mem_singleton, List.not_mem_nil, or_false] at hb
        rcases hb with hb | hb | hb <;> omega
      · simp only [h1, h2, h3, if_neg, not_false_iff, List.mem_cons,
          List.not_mem_nil, or_false] at hb
        rcases hb with hb | hb | hb | hb <;> omega

theorem utf8_roundtrip (n : Nat) (h : n < 0x110000) (rest : List Nat) :
    utf8Decode (utf8Bytes n ++ rest) = (utf8Decode rest).map (fun t => n :: t) := by
  unfold utf8Bytes
  by_cases h1 : n < 0x80
  · simp only [h1, if_pos, List.cons_append, List.nil_append]
    rw [utf8Decode.eq_def]
    simp only [h1, if_pos]
  · by_cases h2 : n < 0x800
    · simp only [h1, h2, if_neg, if_pos, List.cons_append, List.nil_append,
        not_false_iff]
      have e1 : ¬ (0xC0 + n / 0x40 < 0x80) := by omega
      have e2 : ¬ (0xC0 + n / 0x40 < 0xC0) := by omega
      have e3 : 0xC0 + n / 0x40 < 0xE0 := by omega
      have e4 : 0x80 ≤ 0x80 + n % 0x40 ∧ 0x80 + n % 0x40 < 0xC0 := by omega
      have ev : (0xC0 + n / 0x40 - 0xC0) * 0x40 + (0x80 + n % 0x40 - 0x80) = n := by
        omega
      rw [utf8Decode.eq_def]
      simp only [e1, e2, e3, e4, ev, if_neg, if_pos, not_false_iff, and_self,
        if_true]
    · by_cases h3 : n < 0x10000
      · simp only [h1, h2, h3, if_neg, if_pos, List.cons_append, List.nil_append,
          not_false_iff]
        have e1 : ¬ (0xE0 + n / 0x1000 < 0x80) := by omega
        have e2 : ¬ (0xE0 + n / 0x1000 < 0xC0) := by omega
        have e3 : ¬ (0xE0 + n / 0x1000 < 0xE0) := by omega
        have e4 : 0xE0 + n / 0x1000 < 0xF0 := by omega
        have e5 : (0x80 ≤ 0x80 + n / 0x40 % 0x40 ∧ 0x80 + n / 0x40 % 0x40 < 0xC0)
            ∧ 0x80 ≤ 0x80 + n % 0x40 ∧ 0x80 + n % 0x40 < 0xC0 := by omega
        have ev : (0xE0 + n / 0x1000 - 0xE0) * 0x1000
            + (0x80 + n / 0x40 % 0x40 - 0x80) * 0x40 + (0x80 + n % 0x40 - 0x80) = n := by
          omega
        rw [utf8Decode.eq_def]
        simp only [e1, e2, e3, e4, e5, ev, if_neg, if_pos, not_false_iff,
          and_self, if_true]
      · simp only [h1, h2, h3, if_neg, not_false_iff, List.cons_append,
          List.nil_append]
        have e1 : ¬ (0xF0 + n / 0x40000 < 0x80) := by omega
        have e2 : ¬ (0xF0 + n / 0x40000 < 0xC0) := by omega
        have e3 : ¬ (0xF0 + n / 0x40000 < 0xE0) := by omega
        have e4 : ¬ (0xF0 + n / 0x40000 < 0xF0) := by omega
        have e5 : 0xF0 + n / 0x40000 < 0xF8 := by omega
        have e6 : (0x80 ≤ 0x80 + n / 0x1000 % 0x40 ∧ 0x80 + n / 0x1000 % 0x40 < 0xC0)
            ∧ (0x80 ≤ 0x80 + n / 0x40 % 0x40 ∧ 0x80 + n / 0x40 % 0x40 < 0xC0)
            ∧ 0x80 ≤ 0x80 + n % 0x40 ∧ 0x80 + n % 0x40 < 0xC0 := by omega
        have ev : (0xF0 + n / 0x40000 - 0xF0) * 0x40000
            + (0x80 + n / 0x1000 % 0x40 - 0x80) * 0x1000
            + (0x80 + n / 0x40 % 0x40 - 0x80) * 0x40 + (0x80 + n % 0x40 - 0x80) = n := by
          omega
        rw [utf8Decode.eq_def]
        simp only [e1, e2, e3, e4, e5, e6, ev, if_neg, if_pos, not_false_iff,
          and_self, if_true]

theorem percentDecodeBytes_encode (cs : List Char) :
    percentDecodeBytes (cs.flatMap encodeURIChar)
      = some (cs.flatMap (fun c => utf8Bytes c.toNat)) := by
  induction cs with
  | nil => rfl
  | cons c cs ih =>
    rw [List.flatMap_cons, List.flatMap_cons]
    by_cases hk : uriKeepChar c
    · obtain ⟨hlt, hne⟩ := uriKeepChar_ascii hk
      have hp : ¬ (c = '%') := fun he => hne ((congrArg Char.toNat he).trans rfl)
      have hbytes : utf8Bytes c.toNat = [c.toNat] := by simp [utf8Bytes, hlt]
      simp only [encodeURIChar, hk, if_pos, List.cons_append, List.nil_append, hbytes]
      rw [percentDecodeBytes.eq_def]
      simp only [hp, hlt, if_neg, if_pos, not_false_iff, ih, Option.map_some]
      rfl
    · have hb : ∀ b ∈ utf8Bytes c.toNat, b < 256 := utf8Bytes_lt (char_toNat_lt c)
      simp only [encodeURIChar, hk, Bool.false_eq_true, if_neg, not_false_iff]
      rw [percentDecodeBytes_escapes _ hb, ih]
      rfl

theorem utf8Decode_encode (cs : List Char) :
    utf8Decode (cs.flatMap (fun c => utf8Bytes c.toNat)) = some (cs.map Char.toNat) := by
  induction cs with
  | nil => rfl
  | cons c cs ih =>
    rw [List.flatMap_cons, utf8_roundtrip c.toNat (char_toNat_lt c), ih]
    rfl

theorem percentDecode_encodeURI (s : String) : percentDecode (encodeURI s) = some s := by
  unfold percentDecode encodeURI
  rw [show (String.mk (s.data.flatMap encodeURIChar)).data
      = s.data.flatMap encodeURIChar from rfl]
  rw [percentDecodeBytes_encode]
  rw [show (some (s.data.flatMap fun c => utf8Bytes c.toNat)).bind utf8Decode
      = utf8Decode (s.data.flatMap fun c => utf8Bytes c.toNat) from rfl]
  rw [utf8Decode_encode]
  have : (s.data.map Char.toNat).map Char.ofNat = s.data := by
    rw [List.map_map]
    have : (Char.ofNat ∘ Char.toNat) = id := funext Char.ofNat_toNat
    rw [this, List.map_id]
  simp only [this]

/-! Claim theorems. -/

/-- C1: when every stylesheet read succeeds, `getStylesForTree` returns
exactly the spec-side collection — candidate nodes in order (the root, then
every descendant element in document pre-order), per node every stylesheet
in order and every top-level rule in rule order, the output being the
`cssText` values of the relevant rules with each distinct text exactly once
(the collected list is duplicate-free), in first-discovery order, joined
with no separator. -/
theorem getStylesForTree_refines_collectRules (stylesheets : List StyleSheet)
    (rootNode : Node)
    (hacc : ∀ s ∈ stylesheets, readRuleList s = .ok (readRuleListOr s)) :
    getStylesForTree stylesheets rootNode
        = .ok (String.join (collectRules stylesheets rootNode))
      ∧ (collectRules stylesheets rootNode).Nodup :=
  ⟨getStylesForTree_ok stylesheets rootNode hacc,
   collectRules_nodup stylesheets rootNode⟩

/-- Witness for C1: a concrete document with a plain rule, a media group
rule and a rule-list-less sheet, walked from the scenario root. -/
theorem getStylesForTree_refines_collectRules_witness :
    getStylesForTree [mediaSheet, nullSheet] boxRoot
        = .ok (String.join (collectRules [mediaSheet, nullSheet] boxRoot))
      ∧ (collectRules [mediaSheet, nullSheet] boxRoot).Nodup :=
  getStylesForTree_refines_collectRules [mediaSheet, nullSheet] boxRoot
    (by intro s hs; fin_cases hs <;> rfl)

/-- C2: `shouldAddRule` holds of a conditional-group rule (one carrying a
nested rule list) iff some nested rule's selector matches the node, and of
a plain rule iff the node matches the rule's own `selectorText`; as a pure
function of its two arguments it has no side effects. -/
theorem shouldAddRule_relevance (node : Node) (rule : CSSRule) :
    shouldAddRule node rule = true ↔
      match rule.cssRules with
      | some nested => ∃ r ∈ nested, node.matchesFn r.selectorText = true
      | none => node.matchesFn rule.selectorText = true := by
  cases rule with
  | mk sel txt rs =>
    cases rs with
    | none => simp [shouldAddRule, CSSRule.cssRules, CSSRule.selectorText]
    | some nested => simp [shouldAddRule, CSSRule.cssRules, List.any_eq_true]

/-- C10: a rule with no nested rule list is decided by delegating to the
host's `matches` primitive on the rule's `selectorText` — also when that
selector is absent, so a top-level selector-less rule (such as a font-face
rule) makes `matches` be invoked with the absent selector rather than the
result being a hard-coded false. -/
theorem shouldAddRule_plain_delegates (node : Node) (rule : CSSRule)
    (h : rule.cssRules = none) :
    shouldAddRule node rule = node.matchesFn rule.selectorText := by
  unfold shouldAddRule
  rw [h]

/-- Witness for C10: against a host whose `matches` answers true exactly on
an absent selector, the selector-less font-face rule is reported relevant,
so the absent selector really is delegated, not short-circuited to false. -/
theorem shouldAddRule_plain_delegates_witness :
    shouldAddRule probeNode fontFaceRule = probeNode.matchesFn fontFaceRule.selectorText
      ∧ shouldAddRule probeNode fontFaceRule = true :=
  ⟨shouldAddRule_plain_delegates probeNode fontFaceRule rfl, rfl⟩

/-- Counterexample to C3 as stated: with a cross-origin stylesheet whose
rule-list getter throws placed before an accessible sheet, the walk aborts
with the error — it does not skip the sheet and return the accessible
sheet's rules (which the second conjunct shows it would otherwise have
produced). -/
theorem getStylesForTree_throwing_sheet_aborts :
    getStylesForTree [throwingSheet, boxSheet] boxRoot = .error .securityError
      ∧ getStylesForTree [boxSheet] boxRoot = .ok ".box{padding:10px}" :=
  ⟨rfl, rfl⟩

theorem getRulesImpactingNode_skip (l1 l2 : List StyleSheet) (s : StyleSheet)
    (h : readRuleList s = .ok none) (node : Node) :
    getRulesImpactingNode (l1 ++ s :: l2) node = getRulesImpactingNode (l1 ++ l2) node := by
  have aux : ∀ (l1 : List StyleSheet) (object : List String),
      ((l1 ++ s :: l2).foldlM
        (fun object s => do
          let cssRules ← readRuleList s
          match cssRules with
          | none => pure object
          | some rules =>
            pure (rules.foldl
              (fun obj r => if shouldAddRule node r then insertKey obj r.cssText else obj)
              object))
        object : Except JsError (List String))
        = (l1 ++ l2).foldlM
            (fun object s => do
              let cssRules ← readRuleList s
              match cssRules with
              | none => pure object
              | some rules =>
                pure (rules.foldl
                  (fun obj r => if shouldAddRule node r then insertKey obj r.cssText else obj)
                  object))
            object := by
    intro l1
    induction l1 with
    | nil =>
      intro object
      rw [List.nil_append, List.nil_append, List.foldlM_cons, h]
      rfl
    | cons t l1 ih =>
      intro object
      rw [List.cons_append, List.cons_append, List.foldlM_cons, List.foldlM_cons]
      exact congrArg _ (funext fun b => ih b)
  exact aux l1 []

/-- C3 amended: a stylesheet whose rule-list properties are `null`/absent
without throwing contributes nothing and is skipped — deleting it from the
stylesheet list leaves `getStylesForTree` unchanged on every root; when the
rule-list getter throws, however, the exception propagates and aborts the
walk (see the counterexample). -/
theorem getStylesForTree_skips_null_sheet (l1 l2 : List StyleSheet) (s : StyleSheet)
    (h : readRuleList s = .ok none) (rootNode : Node) :
    getStylesForTree (l1 ++ s :: l2) rootNode = getStylesForTree (l1 ++ l2) rootNode := by
  unfold getStylesForTree
  simp only [getRulesImpactingNode_skip l1 l2 s h]

/-- Witness for the amended C3: dropping the concrete rule-list-less sheet
leaves the collected styles unchanged. -/
theorem getStylesForTree_skips_null_sheet_witness :
    getStylesForTree [nullSheet, boxSheet] boxRoot = getStylesForTree [boxSheet] boxRoot :=
  getStylesForTree_skips_null_sheet [] [boxSheet] nullSheet rfl boxRoot

/-- C4: the synthesized document is exactly a doctype, an `html lang="en"`
element, a head holding one style block whose content is the collected
rules, and a body holding the node's serialized inner markup — nothing else
(in particular no script tag and no external reference, the template being
the literal pieces shown); and on the spec's scenario document the body is
`<span>hi</span>` and the style block is `.box{padding:10px}` exactly
once. -/
theorem getIframeContentForNode_spec (stylesheets : List StyleSheet) (node : Node)
    (hacc : ∀ s ∈ stylesheets, readRuleList s = .ok (readRuleListOr s)) :
    getIframeContentForNode stylesheets node
        = .ok ("<!doctype html>" ++ "<html lang=\"en\">" ++ "<head>"
            ++ "<style>" ++ String.join (collectRules stylesheets node) ++ "</style>"
            ++ "</head>" ++ "<body>" ++ node.innerHTML ++ "</body>" ++ "</html>")
      ∧ getIframeContentForNode [boxSheet] boxRoot
          = .ok ("<!doctype html><html lang=\"en\"><head><style>"
              ++ ".box{padding:10px}" ++ "</style></head><body>"
              ++ "<span>hi</span>" ++ "</body></html>") := by
  constructor
  · unfold getIframeContentForNode
    rw [getStylesForTree_ok stylesheets node hacc]
    rfl
  · rfl

/-- Witness for C4 at the scenario document. -/
theorem getIframeContentForNode_spec_witness :
    getIframeContentForNode [boxSheet] boxRoot
        = .ok ("<!doctype html>" ++ "<html lang=\"en\">" ++ "<head>"
            ++ "<style>" ++ String.join (collectRules [boxSheet] boxRoot) ++ "</style>"
            ++ "</head>" ++ "<body>" ++ boxRoot.innerHTML ++ "</body>" ++ "</html>")
      ∧ getIframeContentForNode [boxSheet] boxRoot
          = .ok ("<!doctype html><html lang=\"en\"><head><style>"
              ++ ".box{padding:10px}" ++ "</style></head><body>"
              ++ "<span>hi</span>" ++ "</body></html>") :=
  getIframeContentForNode_spec [boxSheet] boxRoot (by intro s hs; fin_cases hs; rfl)

/-! Helper lemmas for the replacement claims. -/

theorem replaceFirst_at (before after : List Nat) (oldChild newChild : Nat)
    (hb : oldChild ∉ before) :
    replaceFirst (before ++ oldChild :: after) oldChild newChild
      = before ++ newChild :: after := by
  induction before with
  | nil => simp [replaceFirst]
  | cons x xs ih =>
    have hx : ¬ (x = oldChild) := fun he => hb (he ▸ List.mem_cons_self x xs)
    simp only [List.cons_append, replaceFirst, hx, if_neg, not_false_iff,
      List.append_eq]
    rw [ih (fun hm => hb (List.mem_cons_of_mem _ hm))]

theorem iframify_ok_elim {w : World} {node : Node} {nodeId iframeId : Nat}
    {r : IframifyResult}
    (hr : iframify w node nodeId iframeId = .ok r) :
    ∃ html, getIframeContentForNode w.styleSheets node = .ok html ∧
      r = { frame := { srcdoc := some html,
                       src := some ("data:text/html;charset=utf-8," ++ encodeURI html),
                       height := none }
            parentChildren := replaceFirst w.parentChildren nodeId iframeId
            timers := if w.srcdocSupported then [⟨500, .measure⟩] else []
            events := [.assignSrcdoc html,
                       .assignSrc ("data:text/html;charset=utf-8," ++ encodeURI html),
                       .replaceInParent]
              ++ if w.srcdocSupported then [.schedule 500] else [] } := by
  unfold iframify at hr
  cases hhtml : getIframeContentForNode w.styleSheets node with
  | error e =>
    rw [hhtml] at hr
    exact absurd hr (by simp [Except.map])
  | ok html =>
    rw [hhtml] at hr
    refine ⟨html, rfl, ?_⟩
    simp only [Except.map] at hr
    exact (Except.ok.inj hr).symm

/-- C5: when the target node sits between siblings `before` and `after` in
its parent's (duplicate-free) child list, replacement is an atomic
single-node swap: the frame takes the node's exact position, keeping the
same previous and next siblings, every other child is untouched, and the
node itself no longer occurs in the child list (it is detached). -/
theorem iframify_replaces_node_in_place (w : World) (node : Node)
    (nodeId iframeId : Nat) (before after : List Nat) (r : IframifyResult)
    (hchildren : w.parentChildren = before ++ nodeId :: after)
    (hb : nodeId ∉ before) (ha : nodeId ∉ after) (hfresh : nodeId ≠ iframeId)
    (hr : iframify w node nodeId iframeId = .ok r) :
    r.parentChildren = before ++ iframeId :: after ∧ nodeId ∉ r.parentChildren := by
  obtain ⟨html, hh, hrec⟩ := iframify_ok_elim hr
  subst hrec
  constructor
  · show replaceFirst w.parentChildren nodeId iframeId = before ++ iframeId :: after
    rw [hchildren, replaceFirst_at before after nodeId iframeId hb]
  · show nodeId ∉ replaceFirst w.parentChildren nodeId iframeId
    rw [hchildren, replaceFirst_at before after nodeId iframeId hb]
    simp only [List.mem_append, List.mem_cons]
    rintro (h | h | h)
    · exact hb h
    · exact hfresh h
    · exact ha h

/-- Witness for C5: node `3` between siblings `7` and `9` is swapped for
frame `42` in place. -/
theorem iframify_replaces_node_in_place_witness :
    demoResult.parentChildren = [7] ++ 42 :: [9] ∧ 3 ∉ demoResult.parentChildren :=
  iframify_replaces_node_in_place demoWorld boxRoot 3 42 [7] [9] demoResult rfl
    (by decide) (by decide) (by decide) rfl

/-- C6: whatever the inert-channel support flag is, the frame's `src` is
the string `data:text/html;charset=utf-8,` followed by the percent-encoded
synthesized document, and percent-decoding the encoded part yields back
exactly the synthesized document (decode after encode is the identity on
it). -/
theorem iframify_data_uri_roundtrip (w : World) (node : Node)
    (nodeId iframeId : Nat) (html : String) (r : IframifyResult)
    (hhtml : getIframeContentForNode w.styleSheets node = .ok html)
    (hr : iframify w node nodeId iframeId = .ok r) :
    r.frame.src = some ("data:text/html;charset=utf-8," ++ encodeURI html)
      ∧ percentDecode (encodeURI html) = some html := by
  obtain ⟨html2, hh2, hrec⟩ := iframify_ok_elim hr
  rw [hhtml] at hh2
  cases Except.ok.inj hh2
  subst hrec
  exact ⟨rfl, percentDecode_encodeURI html⟩

/-- Witness for C6 at the scenario run. -/
theorem iframify_data_uri_roundtrip_witness :
    demoResult.frame.src = some ("data:text/html;charset=utf-8," ++ encodeURI demoHtml)
      ∧ percentDecode (encodeURI demoHtml) = some demoHtml :=
  iframify_data_uri_roundtrip demoWorld boxRoot 3 42 demoHtml demoResult rfl rfl

/-- C7: with the inert channel supported, exactly one deferred callback is
scheduled, with the fixed 500-unit delay, and its action reads the internal
document's metrics and sets the frame height to the maximum of the five
quantities suffixed with `px`; no second measurement or retry exists in the
schedule. -/
theorem iframify_schedules_single_measurement (w : World) (node : Node)
    (nodeId iframeId : Nat) (r : IframifyResult)
    (hsup : w.srcdocSupported = true)
    (hr : iframify w node nodeId iframeId = .ok r) :
    r.timers = [⟨500, TimerAction.measure⟩]
      ∧ ∀ (m : Metrics) (fr : IFrameState),
          runTimer TimerAction.measure m fr
            = { fr with height := some (toString
                (Nat.max (Nat.max (Nat.max (Nat.max m.bodyScrollHeight m.bodyOffsetHeight)
                  m.htmlClientHeight) m.htmlScrollHeight) m.htmlOffsetHeight) ++ "px") } := by
  obtain ⟨html, hh, hrec⟩ := iframify_ok_elim hr
  subst hrec
  exact ⟨by simp [hsup], fun m fr => rfl⟩

/-- Witness for C7: the scenario run schedules the single 500-unit timer,
and firing it on concrete metrics with maximum 42 sets the height `42px`. -/
theorem iframify_schedules_single_measurement_witness :
    demoResult.timers = [⟨500, TimerAction.measure⟩]
      ∧ runTimer TimerAction.measure demoMetrics demoResult.frame
          = { demoResult.frame with height := some "42px" } :=
  ⟨(iframify_schedules_single_measurement demoWorld boxRoot 3 42 demoResult rfl rfl).1,
   (iframify_schedules_single_measurement demoWorld boxRoot 3 42 demoResult rfl rfl).2
     demoMetrics demoResult.frame⟩

/-- C8: with the inert channel unsupported, no callback is scheduled, the
frame's height is unset by the synchronous call, and running the (empty)
schedule at any later metrics leaves the frame untouched — the system never
mutates the height. -/
theorem iframify_no_resize_without_srcdoc (w : World) (node : Node)
    (nodeId iframeId : Nat) (r : IframifyResult)
    (hsup : w.srcdocSupported = false)
    (hr : iframify w node nodeId iframeId = .ok r) :
    r.timers = [] ∧ r.frame.height = none
      ∧ ∀ m : Metrics, runTimers r.timers m r.frame = r.frame := by
  obtain ⟨html, hh, hrec⟩ := iframify_ok_elim hr
  subst hrec
  refine ⟨by simp [hsup], rfl, ?_⟩
  intro m
  simp [hsup, runTimers]

/-- Witness for C8: the channel-less scenario run schedules nothing and the
frame keeps its height. -/
theorem iframify_no_resize_without_srcdoc_witness :
    noSrcdocResult.timers = [] ∧ noSrcdocResult.frame.height = none
      ∧ runTimers noSrcdocResult.timers demoMetrics noSrcdocResult.frame
          = noSrcdocResult.frame :=
  ⟨(iframify_no_resize_without_srcdoc noSrcdocWorld boxRoot 3 42 noSrcdocResult rfl rfl).1,
   (iframify_no_resize_without_srcdoc noSrcdocWorld boxRoot 3 42 noSrcdocResult rfl rfl).2.1,
   (iframify_no_resize_without_srcdoc noSrcdocWorld boxRoot 3 42 noSrcdocResult rfl rfl).2.2
     demoMetrics⟩

/-- C9: the event trace of every call starts with the unconditional
`srcdoc` assignment of the synthesized document, then the data-URI `src`
assignment, then the DOM replacement, and only its tail — the single
deferred-measurement scheduling — depends on the capability check; the
`srcdoc` property holds the synthesized document whatever the flag is. -/
theorem iframify_sets_srcdoc_unconditionally (w : World) (node : Node)
    (nodeId iframeId : Nat) (html : String) (r : IframifyResult)
    (hhtml : getIframeContentForNode w.styleSheets node = .ok html)
    (hr : iframify w node nodeId iframeId = .ok r) :
    r.frame.srcdoc = some html
      ∧ r.events
          = [Event.assignSrcdoc html,
             Event.assignSrc ("data:text/html;charset=utf-8," ++ encodeURI html),
             Event.replaceInParent]
            ++ (if w.srcdocSupported then [Event.schedule 500] else []) := by
  obtain ⟨html2, hh2, hrec⟩ := iframify_ok_elim hr
  rw [hhtml] at hh2
  cases Except.ok.inj hh2
  subst hrec
  exact ⟨rfl, rfl⟩

/-- Witness for C9 at the scenario run. -/
theorem iframify_sets_srcdoc_unconditionally_witness :
    demoResult.frame.srcdoc = some demoHtml
      ∧ demoResult.events
          = [Event.assignSrcdoc demoHtml,
             Event.assignSrc ("data:text/html;charset=utf-8," ++ encodeURI demoHtml),
             Event.replaceInParent]
            ++ (if demoWorld.srcdocSupported then [Event.schedule 500] else []) :=
  iframify_sets_srcdoc_unconditionally demoWorld boxRoot 3 42 demoHtml demoResult rfl rfl

end Iframify
